import Mathlib

/-!
Verification development for the MLS endpoint library core: a shallow
embedding of the presentation codec, the proposal filter, the transcript
hashes and the membership tag, with theorems checking the specification's
statements against the embedded code.
-/

set_option maxHeartbeats 1000000

namespace Spec2Proof

/-! Byte-level primitives shared by both codecs in the repository. -/

/-- Big-endian byte representation of `n` in exactly `k` bytes, the
behaviour of `to_be_bytes` on a `k`-byte unsigned integer (higher bits of
`n` beyond the width are discarded, as the Rust integer type cannot hold
them). -/
def beBytes : Nat → Nat → List Nat
  | 0, _ => []
  | k + 1, n => beBytes k (n / 256) ++ [n % 256]

/-- Big-endian interpretation of a byte list (`from_be_bytes`). -/
def fromBe (bs : List Nat) : Nat := bs.foldl (fun a b => a * 256 + b) 0

/-- Reading exactly `k` bytes from the front of the input, returning the
bytes read and the remaining input; models consuming from a `&mut &[u8]`
reader (`none` when the input is too short). -/
def readBytes : Nat → List Nat → Option (List Nat × List Nat)
  | 0, input => some ([], input)
  | _ + 1, [] => none
  | k + 1, b :: rest =>
    match readBytes k rest with
    | some (bs, rem) => some (b :: bs, rem)
    | none => none

theorem beBytes_length (k n : Nat) : (beBytes k n).length = k := by
  induction k generalizing n with
  | zero => rfl
  | succ k ih => simp [beBytes, ih]

theorem readBytes_append (bs rest : List Nat) :
    readBytes bs.length (bs ++ rest) = some (bs, rest) := by
  induction bs with
  | nil => rfl
  | cons b bs ih => simp [readBytes, ih]

theorem fromBe_append (l : List Nat) (b : Nat) :
    fromBe (l ++ [b]) = fromBe l * 256 + b := by
  simp [fromBe, List.foldl_append]

theorem fromBe_beBytes (k n : Nat) : fromBe (beBytes k n) = n % 256 ^ k := by
  induction k generalizing n with
  | zero => simp [beBytes, fromBe, Nat.mod_one]
  | succ k ih =>
    rw [beBytes, fromBe_append, ih]
    rw [pow_succ, Nat.mul_comm (256 ^ k) 256, Nat.mod_mul]
    ring

theorem fromBe_beBytes_of_lt {k n : Nat} (h : n < 256 ^ k) :
    fromBe (beBytes k n) = n := by
  rw [fromBe_beBytes, Nat.mod_eq_of_lt h]

/-! Model of the `aws-mls-codec` crate: fixed-width integers
(`src/aws-mls-core/aws-mls-codec/src/stdint.rs`), the variable-length
length prefix and byte vectors, and the `Credential` codec
(`src/aws-mls-core/src/identity/credential.rs`). -/

namespace MlsCodec

/-- Error kinds of the codec, following §4.C1 of the specification:
end of input, length overflow in the variable-length prefix. -/
inductive Error where
  | endOfStream
  | varIntOutOfRange
  deriving DecidableEq, Repr

/-- Encoding of a `k`-byte unsigned integer: `impl_stdint` writes
`to_be_bytes`, the network-byte-order representation. -/
def encodeUInt (k n : Nat) : List Nat := beBytes k n

/-- Decoding of a `k`-byte unsigned integer: `impl_stdint` reads a
`k`-byte array from the reader and applies `from_be_bytes`. -/
def decodeUInt (k : Nat) (input : List Nat) : Except Error (Nat × List Nat) :=
  match readBytes k input with
  | some (bs, rest) => .ok (fromBe bs, rest)
  | none => .error .endOfStream

/-- Modelled from the spec: the variable-length length prefix of §4.C1
("a variable-length-encoded length whose high two bits select a
1/2/4/8-byte form"); the `varint` module of `aws-mls-codec` is not among
the provided sources. The form's tag bits are 00/01/10/11 for the
1/2/4/8-byte encodings and the remaining bits hold the value
big-endian. -/
def varIntEncode (n : Nat) : Except Error (List Nat) :=
  if n < 2 ^ 6 then .ok (beBytes 1 n)
  else if n < 2 ^ 14 then .ok (beBytes 2 (2 ^ 14 + n))
  else if n < 2 ^ 30 then .ok (beBytes 4 (2 ^ 31 + n))
  else if n < 2 ^ 62 then .ok (beBytes 8 (2 ^ 63 + 2 ^ 62 + n))
  else .error .varIntOutOfRange

/-- Modelled from the spec: decoding of the variable-length length prefix.
The high two bits of the first byte select how many bytes the form
occupies; the value is the big-endian remainder after the two tag bits. -/
def varIntDecode (input : List Nat) : Except Error (Nat × List Nat) :=
  match input with
  | [] => .error .endOfStream
  | b :: _ =>
    let k := if b / 64 = 0 then 1 else if b / 64 = 1 then 2 else if b / 64 = 2 then 4 else 8
    match readBytes k input with
    | some (bs, rest) => .ok (fromBe bs % 2 ^ (8 * k - 2), rest)
    | none => .error .endOfStream

/-- Modelled from the spec: `aws_mls_codec::byte_vec::mls_encode`, the
variable-length byte vector of §4.C1 — the length prefix followed by the
raw bytes. -/
def byteVecEncode (d : List Nat) : Except Error (List Nat) :=
  (varIntEncode d.length).map (· ++ d)

/-- Modelled from the spec: `aws_mls_codec::byte_vec::mls_decode` — read
the length prefix, then exactly that many bytes. -/
def byteVecDecode (input : List Nat) : Except Error (List Nat × List Nat) :=
  match varIntDecode input with
  | .ok (len, rest) =>
    match readBytes len rest with
    | some p => .ok p
    | none => .error .endOfStream
  | .error e => .error e

theorem varIntDecode_encode (n : Nat) (out extra : List Nat)
    (h : varIntEncode n = .ok out) : varIntDecode (out ++ extra) = .ok (n, extra) := by
  unfold varIntEncode at h
  split_ifs at h with h1 h2 h3 h4
  · injection h with h'
    subst h'
    rw [show beBytes 1 n = [n % 256] from rfl, Nat.mod_eq_of_lt (by omega)]
    unfold varIntDecode
    have hd : n / 64 = 0 := by omega
    simp only [List.cons_append, List.nil_append, hd]
    norm_num [readBytes, fromBe]
    omega
  · injection h with h'
    subst h'
    rw [show beBytes 2 (2 ^ 14 + n) =
        [(2 ^ 14 + n) / 256 % 256, (2 ^ 14 + n) % 256] from rfl]
    unfold varIntDecode
    have hd : (2 ^ 14 + n) / 256 % 256 / 64 = 1 := by omega
    simp only [List.cons_append, List.nil_append, hd]
    norm_num [readBytes, fromBe]
    omega
  · injection h with h'
    subst h'
    rw [show beBytes 4 (2 ^ 31 + n) =
        [(2 ^ 31 + n) / 256 / 256 / 256 % 256, (2 ^ 31 + n) / 256 / 256 % 256,
         (2 ^ 31 + n) / 256 % 256, (2 ^ 31 + n) % 256] from rfl]
    unfold varIntDecode
    have hd : (2 ^ 31 + n) / 256 / 256 / 256 % 256 / 64 = 2 := by omega
    simp only [List.cons_append, List.nil_append, hd]
    norm_num [readBytes, fromBe]
    omega
  · injection h with h'
    subst h'
    rw [show beBytes 8 (2 ^ 63 + 2 ^ 62 + n) =
        [(2 ^ 63 + 2 ^ 62 + n) / 256 / 256 / 256 / 256 / 256 / 256 / 256 % 256,
         (2 ^ 63 + 2 ^ 62 + n) / 256 / 256 / 256 / 256 / 256 / 256 % 256,
         (2 ^ 63 + 2 ^ 62 + n) / 256 / 256 / 256 / 256 / 256 % 256,
         (2 ^ 63 + 2 ^ 62 + n) / 256 / 256 / 256 / 256 % 256,
         (2 ^ 63 + 2 ^ 62 + n) / 256 / 256 / 256 % 256,
         (2 ^ 63 + 2 ^ 62 + n) / 256 / 256 % 256,
         (2 ^ 63 + 2 ^ 62 + n) / 256 % 256,
         (2 ^ 63 + 2 ^ 62 + n) % 256] from rfl]
    unfold varIntDecode
    have hd : (2 ^ 63 + 2 ^ 62 + n) / 256 / 256 / 256 / 256 / 256 / 256 / 256 % 256 / 64 = 3 := by
      omega
    simp only [List.cons_append, List.nil_append, hd]
    norm_num [readBytes, fromBe]
    omega

theorem byteVecDecode_encode (d out extra : List Nat)
    (h : byteVecEncode d = .ok out) : byteVecDecode (out ++ extra) = .ok (d, extra) := by
  unfold byteVecEncode at h
  cases hv : varIntEncode d.length with
  | error e => rw [hv] at h; exact absurd h (by simp [Except.map])
  | ok pre =>
    rw [hv] at h
    simp only [Except.map] at h
    injection h with h'
    subst h'
    unfold byteVecDecode
    rw [List.append_assoc, varIntDecode_encode _ _ _ hv]
    simp [readBytes_append d extra]

/-- The `Credential` enum of `src/aws-mls-core/src/identity/credential.rs`
in a build without the optional `x509` feature: a `Basic` credential
carrying an opaque identifier, or a user-defined `Custom` credential
carrying a numeric credential type and opaque data. -/
inductive Credential where
  | basic (identifier : List Nat)
  | custom (credentialType : Nat) (data : List Nat)
  deriving DecidableEq, Repr

/-- `Credential::credential_type`: `BASIC` is the `CredentialType` with
raw value 1; a custom credential reports its stored type. -/
def Credential.credentialType : Credential → Nat
  | .basic _ => 1
  | .custom t _ => t

/-- `impl MlsEncode for Credential`: write the `u16` credential type, then
the variant body — the `byte_vec` identifier for `Basic`
(`BasicCredential`'s only field), the `byte_vec` data for `Custom`. -/
def Credential.mlsEncode (c : Credential) : Except Error (List Nat) :=
  match c with
  | .basic ident => (byteVecEncode ident).map (encodeUInt 2 c.credentialType ++ ·)
  | .custom _ d => (byteVecEncode d).map (encodeUInt 2 c.credentialType ++ ·)

/-- `impl MlsDecode for Credential`: read the leading `u16` credential
type and dispatch — 1 is `Basic`, every other value is `Custom` carrying
that type and the decoded `byte_vec` body (the `x509` feature being
disabled, there is no arm for value 2). -/
def Credential.mlsDecode (input : List Nat) : Except Error (Credential × List Nat) :=
  match decodeUInt 2 input with
  | .error e => .error e
  | .ok (t, rest) =>
    if t = 1 then (byteVecDecode rest).map (fun p => (.basic p.1, p.2))
    else (byteVecDecode rest).map (fun p => (.custom t p.1, p.2))

end MlsCodec

open MlsCodec in
/-- A credential whose stored credential type fits the Rust `u16` and, for
the `Custom` variant, is not the reserved `BASIC` value. -/
def MlsCodec.Credential.wellTyped : Credential → Prop
  | .basic _ => True
  | .custom t _ => t < 2 ^ 16 ∧ t ≠ 1

open MlsCodec in
theorem uint_roundtrip (k v : Nat) (extra : List Nat) (h : v < 2 ^ (8 * k)) :
    decodeUInt k (encodeUInt k v ++ extra) = .ok (v, extra) := by
  have hv : v < 256 ^ k := by
    have : (256 : Nat) ^ k = 2 ^ (8 * k) := by
      rw [show (256 : Nat) = 2 ^ 8 from rfl, ← Nat.pow_mul]
    omega
  have hr := readBytes_append (beBytes k v) extra
  rw [beBytes_length] at hr
  unfold decodeUInt encodeUInt
  rw [hr]
  simp [fromBe_beBytes_of_lt hv]

open MlsCodec in
theorem credential_roundtrip (c : Credential) (bytes extra : List Nat)
    (hw : c.wellTyped) (h : c.mlsEncode = .ok bytes) :
    Credential.mlsDecode (bytes ++ extra) = .ok (c, extra) := by
  cases c with
  | basic ident =>
    simp only [Credential.mlsEncode] at h
    cases hv : byteVecEncode ident with
    | error e => rw [hv] at h; exact absurd h (by simp [Except.map])
    | ok bv =>
      rw [hv] at h
      simp only [Except.map] at h
      injection h with h'
      subst h'
      unfold Credential.mlsDecode
      have hu := uint_roundtrip 2 1 (bv ++ extra) (by norm_num)
      rw [show Credential.credentialType (.basic ident) = 1 from rfl] at *
      rw [List.append_assoc, hu]
      simp only [reduceIte]
      rw [byteVecDecode_encode ident bv extra hv]
      rfl
  | custom t d =>
    obtain ⟨ht, ht1⟩ := hw
    simp only [Credential.mlsEncode] at h
    cases hv : byteVecEncode d with
    | error e => rw [hv] at h; exact absurd h (by simp [Except.map])
    | ok bv =>
      rw [hv] at h
      simp only [Except.map] at h
      injection h with h'
      subst h'
      unfold Credential.mlsDecode
      have hu := uint_roundtrip 2 t (bv ++ extra) (by omega)
      rw [show Credential.credentialType (.custom t d) = t from rfl] at *
      rw [List.append_assoc, hu]
      simp only [ht1, reduceIte]
      rw [byteVecDecode_encode d bv extra hv]
      rfl

end Spec2Proof
namespace Spec2Proof

/-- C6 counterexample: the claim quantifies over every `Credential` value,
but a `Custom` credential built with the reserved type value 1 (possible
through `CustomCredential::new`, documented as unspecified behaviour)
encodes to the same bytes as a `Basic` credential and decodes back to
`Basic`, not to the original `Custom` value. -/
theorem credential_roundtrip_cex :
    MlsCodec.Credential.mlsEncode (.custom 1 [2]) = .ok [0, 1, 1, 2] ∧
    MlsCodec.Credential.mlsDecode [0, 1, 1, 2] = .ok (.basic [2], []) ∧
    MlsCodec.Credential.basic [2] ≠ MlsCodec.Credential.custom 1 [2] := by
  refine ⟨rfl, rfl, by decide⟩

/-- C6 (amended): fixed-width unsigned integers encode to their big-endian
bytes and decoding inverts encoding; every `Credential` whose `Custom`
variant carries a non-reserved `u16` type value round-trips through the
codec, and encoding is deterministic (it is a function of the value). -/
theorem mls_codec_roundtrip :
    (∀ k v, MlsCodec.encodeUInt k v = beBytes k v) ∧
    (∀ k v extra, v < 2 ^ (8 * k) →
      MlsCodec.decodeUInt k (MlsCodec.encodeUInt k v ++ extra) = .ok (v, extra)) ∧
    (∀ (c : MlsCodec.Credential) (bytes extra : List Nat), c.wellTyped →
      c.mlsEncode = .ok bytes →
      MlsCodec.Credential.mlsDecode (bytes ++ extra) = .ok (c, extra)) :=
  ⟨fun _ _ => rfl, uint_roundtrip, credential_roundtrip⟩

/-- C6 witness: the round trip evaluated at `u16` value 1024 and at a
custom credential with type 3 and data `[9, 9]`. -/
theorem mls_codec_roundtrip_witness :
    MlsCodec.decodeUInt 2 (MlsCodec.encodeUInt 2 1024 ++ [7]) = .ok (1024, [7]) ∧
    MlsCodec.Credential.mlsDecode ([0, 3, 2, 9, 9] ++ [5]) = .ok (.custom 3 [9, 9], [5]) :=
  ⟨mls_codec_roundtrip.2.1 2 1024 [7] (by norm_num),
   mls_codec_roundtrip.2.2 (.custom 3 [9, 9]) [0, 3, 2, 9, 9] [5]
     ⟨by norm_num, by norm_num⟩ rfl⟩

/-- C7: `Credential::mls_decode` reads a leading `u16` credential type and
dispatches on it — value 1 yields `Basic`, any other value yields `Custom`
carrying exactly that type value and the length-prefixed payload bytes;
re-encoding the decoded custom credential reproduces the original
discriminant and payload. -/
theorem credential_decode_dispatch :
    (∀ ident bv extra, MlsCodec.byteVecEncode ident = .ok bv →
      MlsCodec.Credential.mlsDecode (MlsCodec.encodeUInt 2 1 ++ bv ++ extra) =
        .ok (.basic ident, extra)) ∧
    (∀ t, t < 2 ^ 16 → t ≠ 1 → ∀ d bv extra, MlsCodec.byteVecEncode d = .ok bv →
      MlsCodec.Credential.mlsDecode (MlsCodec.encodeUInt 2 t ++ bv ++ extra) =
        .ok (.custom t d, extra) ∧
      MlsCodec.Credential.mlsEncode (.custom t d) =
        .ok (MlsCodec.encodeUInt 2 t ++ bv)) := by
  constructor
  · intro ident bv extra hv
    have h : MlsCodec.Credential.mlsEncode (.basic ident) =
        .ok (MlsCodec.encodeUInt 2 1 ++ bv) := by
      simp only [MlsCodec.Credential.mlsEncode, hv, Except.map]
      rfl
    exact credential_roundtrip (.basic ident) _ extra trivial h
  · intro t ht ht1 d bv extra hv
    have h : MlsCodec.Credential.mlsEncode (.custom t d) =
        .ok (MlsCodec.encodeUInt 2 t ++ bv) := by
      simp only [MlsCodec.Credential.mlsEncode, hv, Except.map]
      rfl
    exact ⟨credential_roundtrip (.custom t d) _ extra ⟨ht, ht1⟩ h, h⟩

/-- C7 witness: dispatch evaluated on the type-1 and type-500 inputs. -/
theorem credential_decode_dispatch_witness :
    MlsCodec.Credential.mlsDecode (MlsCodec.encodeUInt 2 1 ++ [1, 8] ++ [4]) =
      .ok (.basic [8], [4]) ∧
    MlsCodec.Credential.mlsDecode (MlsCodec.encodeUInt 2 500 ++ [1, 8] ++ [4]) =
      .ok (.custom 500 [8], [4]) :=
  ⟨credential_decode_dispatch.1 [8] [1, 8] [4] rfl,
   (credential_decode_dispatch.2 500 (by norm_num) (by norm_num) [8] [1, 8] [4] rfl).1⟩

end Spec2Proof
namespace Spec2Proof

/-! Model of `src/src/tls/vector.rs`: the generic TLS vector codec with a
fixed-width index type `I`, instantiated here by the byte width
`k = size_of::<I>()`. Element codecs (the `Sizer`/`Serializer`/
`Deserializer` bounds on `S`) are passed explicitly. -/

namespace Tls

/-- Error kinds of the `tls_codec` crate used by the vector codec, plus a
`decodeLimit` marker: the Rust `while` loop of `tls_deserialize` has no
bound of its own, so the model runs it on a fuel budget that is provably
sufficient whenever every element occupies at least one byte. -/
inductive Error where
  | endOfStream
  | invalidVectorLength
  | decodeLimit
  deriving DecidableEq, Repr

/-- An element codec: `Sizer::serialized_len`, the bytes written by
`Serializer::serialize`, and `Deserializer::deserialize` consuming from
the reader. -/
structure ElemCodec (T : Type) where
  len : T → Nat
  ser : T → List Nat
  des : List Nat → Except Error (T × List Nat)

/-- `Vector::tls_serialized_len`: `size_of::<I>()` plus the sum of element
serialized lengths. -/
def vectorSerializedLen {T : Type} (k : Nat) (C : ElemCodec T) (v : List T) : Nat :=
  k + (v.map C.len).sum

/-- `Vector::tls_serialize`: the element-length total (`tls_serialized_len`
minus `size_of::<I>()`) converted into `I` — failing with
`InvalidVectorLength` when it does not fit — written big-endian, followed
by each element's serialization. -/
def vectorSerialize {T : Type} (k : Nat) (C : ElemCodec T) (v : List T) :
    Except Error (List Nat) :=
  let len := vectorSerializedLen k C v - k
  if len < 2 ^ (8 * k) then .ok (beBytes k len ++ (v.map C.ser).flatten)
  else .error .invalidVectorLength

/-- The `while read_len < len` loop of `Vector::tls_deserialize`: decode an
element, add its `serialized_len` to `read_len`, stop as soon as
`read_len` reaches or passes `len`. -/
def vecDeserLoop {T : Type} (C : ElemCodec T) :
    Nat → Nat → Nat → List Nat → Except Error (List T × List Nat)
  | fuel, readLen, len, input =>
    if readLen < len then
      match fuel with
      | 0 => .error .decodeLimit
      | fuel + 1 =>
        match C.des input with
        | .error e => .error e
        | .ok (t, rest) =>
          match vecDeserLoop C fuel (readLen + C.len t) len rest with
          | .error e => .error e
          | .ok (ts, rem) => .ok (t :: ts, rem)
    else .ok ([], input)

/-- `Vector::tls_deserialize`: read the `I` length prefix, then run the
element loop starting from `read_len = 0`. -/
def vectorDeserialize {T : Type} (k : Nat) (C : ElemCodec T) (input : List Nat) :
    Except Error (List T × List Nat) :=
  match readBytes k input with
  | none => .error .endOfStream
  | some (lenBytes, rest) => vecDeserLoop C (fromBe lenBytes) 0 (fromBe lenBytes) rest

/-- The `u8` element codec of `tls_codec`: one byte per value. -/
def u8Codec : ElemCodec Nat :=
  ⟨fun _ => 1, fun b => [b],
   fun input =>
     match input with
     | [] => .error .endOfStream
     | b :: r => .ok (b, r)⟩

/-- The `u16` element codec of `tls_codec`: two big-endian bytes. -/
def u16Codec : ElemCodec Nat :=
  ⟨fun _ => 2, fun n => beBytes 2 n,
   fun input =>
     match readBytes 2 input with
     | some (bs, r) => .ok (fromBe bs, r)
     | none => .error .endOfStream⟩

end Tls

/-- C5 counterexample: serializing the one-element `u8` list `[7]` with
the default `u32` index type yields a four-byte fixed-width prefix
`[0, 0, 0, 1]`, not the one-byte variable-length form `[1]` that the MLS
high-two-bits encoding of length 1 would produce. -/
theorem vector_serialize_prefix_cex :
    Tls.vectorSerialize 4 Tls.u8Codec [7] = .ok [0, 0, 0, 1, 7] ∧
    MlsCodec.varIntEncode 1 = .ok [1] ∧
    ([0, 0, 0, 1, 7] : List Nat) ≠ [1] ++ [7] :=
  ⟨rfl, rfl, by decide⟩

/-- C5 (amended): the vector codec writes a fixed-width length prefix —
the big-endian encoding of the element-byte total in `size_of::<I>()`
bytes — followed by the serialized elements, and the prefix value equals
the total byte length of the serialized elements (whenever the element
sizer agrees with the serializer and the total fits the index type). -/
theorem flatten_length_eq_len_sum {T : Type} (C : Tls.ElemCodec T) (v : List T)
    (hc : ∀ x ∈ v, C.len x = (C.ser x).length) :
    ((v.map C.ser).flatten).length = (v.map C.len).sum := by
  induction v with
  | nil => rfl
  | cons x xs ih =>
    simp only [List.map_cons, List.flatten_cons, List.length_append, List.sum_cons]
    rw [← hc x (by simp), ih (fun y hy => hc y (by simp [hy]))]

theorem vector_serialize_layout {T : Type} (k : Nat) (C : Tls.ElemCodec T) (v : List T)
    (hc : ∀ x ∈ v, C.len x = (C.ser x).length)
    (h : (v.map C.len).sum < 2 ^ (8 * k)) :
    Tls.vectorSerialize k C v =
      .ok (beBytes k ((v.map C.len).sum) ++ (v.map C.ser).flatten) ∧
    (beBytes k ((v.map C.len).sum)).length = k ∧
    fromBe (beBytes k ((v.map C.len).sum)) = ((v.map C.ser).flatten).length := by
  have hsum := flatten_length_eq_len_sum C v hc
  refine ⟨?_, beBytes_length k _, ?_⟩
  · unfold Tls.vectorSerialize Tls.vectorSerializedLen
    rw [Nat.add_sub_cancel_left]
    simp [h]
  · rw [hsum, fromBe_beBytes_of_lt]
    have : (256 : Nat) ^ k = 2 ^ (8 * k) := by
      rw [show (256 : Nat) = 2 ^ 8 from rfl, ← Nat.pow_mul]
    omega

/-- C5 witness: the layout theorem evaluated on the `u8` list `[7]` with
the default `u32` index width. -/
theorem vector_serialize_layout_witness :
    Tls.vectorSerialize 4 Tls.u8Codec [7] =
      .ok (beBytes 4 (([7].map Tls.u8Codec.len).sum) ++ ([7].map Tls.u8Codec.ser).flatten) :=
  (vector_serialize_layout 4 Tls.u8Codec [7] (by intro x hx; rfl) (by norm_num [Tls.u8Codec])).1

/-! Model of the proposal filter of
`src/aws-mls/src/group/proposal_filter/filtering.rs`. -/

namespace Mls

/-- The `Sender` enum of a proposal or commit. -/
inductive Sender where
  | member (index : Nat)
  | external (senderIndex : Nat)
  | newMemberProposal
  | newMemberCommit
  deriving DecidableEq, Repr

/-- Proposal type identifiers: `ProposalType` wraps a `u16`; the named
constants carry the RFC 9420 values. -/
def ProposalType : Type := Nat

instance : DecidableEq ProposalType := instDecidableEqNat

namespace ProposalType

def ADD : ProposalType := (1 : Nat)

def UPDATE : ProposalType := (2 : Nat)

def REMOVE : ProposalType := (3 : Nat)

def PSK : ProposalType := (4 : Nat)

def RE_INIT : ProposalType := (5 : Nat)

def EXTERNAL_INIT : ProposalType := (6 : Nat)

def GROUP_CONTEXT_EXTENSIONS : ProposalType := (7 : Nat)

end ProposalType

/-- The `MlsError` variants reached by the filtering code under
consideration. -/
inductive MlsError where
  | invalidProposalTypeForSender
  | invalidCommitSelfUpdate
  | committerSelfRemoval
  | invalidProtocolVersionInReInit
  | otherProposalWithReInit
  | moreThanOneGroupContextExtensionsProposal
  | codecFailure
  | cryptoProviderFailure
  deriving DecidableEq, Repr

/-- The two filter strategies. -/
inductive FilterStrategy where
  | ignoreByRef
  | ignoreNone
  deriving DecidableEq, Repr

/-- `FilterStrategy::ignore`: whether a failure on a proposal with the
given origin is ignored. -/
def FilterStrategy.ignore : FilterStrategy → Bool → Bool
  | .ignoreByRef, byRef => byRef
  | .ignoreNone, _ => false

/-- `FilterStrategy::is_ignore`. -/
def FilterStrategy.is_ignore : FilterStrategy → Bool
  | .ignoreByRef => true
  | .ignoreNone => false

/-- `apply_strategy`: map a per-proposal validation result to "keep"
(`Ok(true)`), "drop" (`Ok(false)`) or a propagated error. -/
def apply_strategy (strategy : FilterStrategy) (byRef : Bool)
    (r : Except MlsError Unit) : Except MlsError Bool :=
  match r with
  | .ok _ => .ok true
  | .error e => if strategy.ignore byRef then .ok false else .error e

/-- `proposer_can_propose`: the sender/type/origin authorisation match of
`filtering.rs` lines 446-494. -/
def proposer_can_propose (proposer : Sender) (proposalType : ProposalType)
    (byRef : Bool) : Except MlsError Unit :=
  let canPropose : Bool :=
    match proposer, byRef with
    | .member _, false =>
        proposalType = ProposalType.ADD ∨ proposalType = ProposalType.REMOVE ∨
        proposalType = ProposalType.PSK ∨ proposalType = ProposalType.RE_INIT ∨
        proposalType = ProposalType.GROUP_CONTEXT_EXTENSIONS
    | .member _, true =>
        proposalType = ProposalType.ADD ∨ proposalType = ProposalType.UPDATE ∨
        proposalType = ProposalType.REMOVE ∨ proposalType = ProposalType.PSK ∨
        proposalType = ProposalType.RE_INIT ∨
        proposalType = ProposalType.GROUP_CONTEXT_EXTENSIONS
    | .external _, false => false
    | .external _, true =>
        proposalType = ProposalType.ADD ∨ proposalType = ProposalType.REMOVE ∨
        proposalType = ProposalType.RE_INIT ∨ proposalType = ProposalType.PSK ∨
        proposalType = ProposalType.GROUP_CONTEXT_EXTENSIONS
    | .newMemberCommit, false =>
        proposalType = ProposalType.REMOVE ∨ proposalType = ProposalType.PSK ∨
        proposalType = ProposalType.EXTERNAL_INIT
    | .newMemberCommit, true => false
    | .newMemberProposal, false => false
    | .newMemberProposal, true => proposalType = ProposalType.ADD
  if canPropose then .ok () else .error .invalidProposalTypeForSender

/-- Modelled from the spec: a proposal's bookkeeping record — §4.C5 has
each element of a `ProposalBundle` "tagged with its sender and
by-value/by-reference origin"; the `ProposalInfo` struct itself lives in
the bundle module, which is not among the provided sources. `T` is the
proposal payload. -/
structure ProposalInfo (T : Type) where
  proposal : T
  sender : Sender
  byRef : Bool
  deriving DecidableEq, Repr

/-- `ProposalInfo::is_by_reference`. -/
def ProposalInfo.is_by_reference {T : Type} (p : ProposalInfo T) : Bool := p.byRef

/-- `ProposalInfo::is_by_value`. -/
def ProposalInfo.is_by_value {T : Type} (p : ProposalInfo T) : Bool := !p.byRef

/-- Modelled from the spec: "a `ProposalBundle` holds the proposals of
each type in separate, index-stable sequences" (§4.C5); the struct lives
in the bundle module, not among the provided sources. One payload type
`T` stands for all proposal payloads, which the filtering functions under
study never inspect. -/
structure ProposalBundle (T : Type) where
  additions : List (ProposalInfo T)
  updates : List (ProposalInfo T)
  removals : List (ProposalInfo T)
  psks : List (ProposalInfo T)
  reinitializations : List (ProposalInfo T)
  externalInitializations : List (ProposalInfo T)
  groupContextExtensions : List (ProposalInfo T)
  deriving DecidableEq, Repr

/-- Modelled from the spec: `ProposalBundle::length`, the total number of
proposals across the per-type sequences. -/
def ProposalBundle.length {T : Type} (b : ProposalBundle T) : Nat :=
  b.additions.length + b.updates.length + b.removals.length + b.psks.length +
  b.reinitializations.length + b.externalInitializations.length +
  b.groupContextExtensions.length

/-- Modelled from the spec: `ProposalBundle::retain_by_type` on one
sequence — keep the elements the fallible predicate accepts, drop the ones
it rejects, abort on its first error. -/
def retainM {T : Type} (f : ProposalInfo T → Except MlsError Bool) :
    List (ProposalInfo T) → Except MlsError (List (ProposalInfo T))
  | [] => .ok []
  | p :: ps =>
    match f p with
    | .error e => .error e
    | .ok true => (retainM f ps).map (p :: ·)
    | .ok false => retainM f ps

/-- `filter_out_update_for_committer`: retain an `Update` under the
strategy when its sender differs from the committer, flagging
`InvalidCommitSelfUpdate` otherwise. -/
def filter_out_update_for_committer {T : Type} (strategy : FilterStrategy)
    (commitSender : Nat) (proposals : ProposalBundle T) :
    Except MlsError (ProposalBundle T) :=
  (retainM (fun p =>
      apply_strategy strategy p.is_by_reference
        (if p.sender ≠ Sender.member commitSender then .ok ()
         else .error .invalidCommitSelfUpdate))
    proposals.updates).map (fun ups => { proposals with updates := ups })

/-- `filter_out_reinit_if_other_proposals` (`filtering.rs` lines 411-428):
when proposals of other types are present, fail with
`OtherProposalWithReInit` if any `ReInit` is by-value or the strategy does
not filter; otherwise clear the `ReInit` sequence. -/
def filter_out_reinit_if_other_proposals {T : Type} (filter : Bool)
    (proposals : ProposalBundle T) : Except MlsError (ProposalBundle T) :=
  if proposals.reinitializations.length < proposals.length then
    if proposals.reinitializations.any (fun p => p.is_by_value) ||
        (!proposals.reinitializations.isEmpty && !filter) then
      .error .otherProposalWithReInit
    else .ok { proposals with reinitializations := [] }
  else .ok proposals

/-! Model of `src/aws-mls/src/group/transcript_hash.rs`. The encodings of
`FramedContent` and of the `ConfirmationTag`'s body, and the hash of the
`CipherSuiteProvider`, are code outside the provided sources and enter as
function parameters; `MessageSignature` and `ConfirmationTag` are
`byte_vec`-encoded wrappers around raw bytes. Both `create` functions are
by construction deterministic in all of their arguments. -/

/-- The `WireFormat` enum of the `aws-mls` crate (`u16` discriminant,
RFC 9420 values). -/
inductive WireFormat where
  | publicMessage
  | privateMessage
  | welcome
  | groupInfo
  | keyPackage
  deriving DecidableEq, Repr

/-- The `u16` discriminant value a `WireFormat` encodes to. -/
def WireFormat.value : WireFormat → Nat
  | .publicMessage => 1
  | .privateMessage => 2
  | .welcome => 3
  | .groupInfo => 4
  | .keyPackage => 5

/-- `AuthenticatedContent` as far as the transcript hash reads it: the
wire format, the framed content (opaque payload type `FC`), and the
signature bytes of `auth.signature`. -/
structure AuthenticatedContent (FC : Type) where
  wireFormat : WireFormat
  content : FC
  signature : List Nat
  deriving DecidableEq, Repr

/-- `ConfirmedTranscriptHash::create`: encode the
`ConfirmedTranscriptHashInput` struct — wire format (`u16`), framed
content, signature (`byte_vec`) in declaration order, as the derived
`MlsEncode` does — prepend the previous interim transcript hash, and hash
with the cipher suite provider; codec errors and provider errors map to
the corresponding `MlsError`. -/
def ConfirmedTranscriptHash.create {FC : Type}
    (hash : List Nat → Except Unit (List Nat)) (encodeContent : FC → List Nat)
    (interimTranscriptHash : List Nat) (content : AuthenticatedContent FC) :
    Except MlsError (List Nat) :=
  match MlsCodec.byteVecEncode content.signature with
  | .error _ => .error .codecFailure
  | .ok sigBytes =>
    match hash (interimTranscriptHash ++
        (beBytes 2 content.wireFormat.value ++ encodeContent content.content ++
          sigBytes)) with
    | .ok h => .ok h
    | .error _ => .error .cryptoProviderFailure

/-- `InterimTranscriptHash::create`: encode the
`InterimTranscriptHashInput` struct — the confirmation tag's bytes as a
`byte_vec` — prepend the confirmed transcript hash, and hash with the
cipher suite provider. -/
def InterimTranscriptHash.create (hash : List Nat → Except Unit (List Nat))
    (confirmed : List Nat) (confirmationTag : List Nat) :
    Except MlsError (List Nat) :=
  match MlsCodec.byteVecEncode confirmationTag with
  | .error _ => .error .codecFailure
  | .ok tagBytes =>
    match hash (confirmed ++ tagBytes) with
    | .ok h => .ok h
    | .error _ => .error .cryptoProviderFailure

/-- The authorisation matrix as the claim tabulates it (§4.C5 of the
specification), stated independently of the code. -/
def allowedMatrix (sender : Sender) (proposalType : ProposalType)
    (byRef : Bool) : Bool :=
  match sender, byRef with
  | .member _, false =>
      proposalType = ProposalType.ADD ∨ proposalType = ProposalType.REMOVE ∨
      proposalType = ProposalType.PSK ∨ proposalType = ProposalType.RE_INIT ∨
      proposalType = ProposalType.GROUP_CONTEXT_EXTENSIONS
  | .member _, true =>
      proposalType = ProposalType.ADD ∨ proposalType = ProposalType.UPDATE ∨
      proposalType = ProposalType.REMOVE ∨ proposalType = ProposalType.PSK ∨
      proposalType = ProposalType.RE_INIT ∨
      proposalType = ProposalType.GROUP_CONTEXT_EXTENSIONS
  | .external _, false => false
  | .external _, true =>
      proposalType = ProposalType.ADD ∨ proposalType = ProposalType.REMOVE ∨
      proposalType = ProposalType.RE_INIT ∨ proposalType = ProposalType.PSK ∨
      proposalType = ProposalType.GROUP_CONTEXT_EXTENSIONS
  | .newMemberCommit, false =>
      proposalType = ProposalType.REMOVE ∨ proposalType = ProposalType.PSK ∨
      proposalType = ProposalType.EXTERNAL_INIT
  | .newMemberCommit, true => false
  | .newMemberProposal, false => false
  | .newMemberProposal, true => proposalType = ProposalType.ADD

end Mls

/-- C10: `Vector::tls_deserialize` stops only once the accumulated
serialized length reaches or passes the declared prefix and never checks
the exact boundary: on the input whose `u32` prefix declares 3 bytes
followed by two 2-byte `u16` elements, the declared length 3 falls
strictly inside the final element's encoding (which spans offsets 2 to 4),
yet deserialization returns `Ok [1, 2]` with accumulated length 4
exceeding the prefix value 3. -/
theorem vector_deserialize_overrun :
    Tls.vectorDeserialize 4 Tls.u16Codec [0, 0, 0, 3, 0, 1, 0, 2] = .ok ([1, 2], []) ∧
    fromBe [0, 0, 0, 3] = 3 ∧
    (([1, 2] : List Nat).map Tls.u16Codec.len).sum = 4 ∧
    Tls.u16Codec.len 1 = 2 ∧ 2 < 3 ∧ 3 < 4 := by
  refine ⟨rfl, rfl, rfl, rfl, by norm_num, by norm_num⟩

end Spec2Proof
namespace Spec2Proof

/-- C1: `proposer_can_propose` returns `Ok` exactly on the tuples of the
§4.C5 authorisation matrix and `InvalidProposalTypeForSender` on every
tuple outside it, for every sender kind, proposal type value and
origin. -/
theorem proposer_can_propose_matrix (s : Mls.Sender) (pt : Mls.ProposalType)
    (br : Bool) :
    Mls.proposer_can_propose s pt br =
      (if Mls.allowedMatrix s pt br then .ok ()
       else .error .invalidProposalTypeForSender) := by
  cases s <;> cases br <;> rfl

/-- C2: `apply_strategy` keeps a proposal whose validation succeeded,
silently drops one exactly when validation failed on a by-reference
proposal under `IgnoreByRef`, and propagates the error in every other
failure case (by-value proposal, or the `IgnoreNone` strategy). -/
theorem apply_strategy_spec (s : Mls.FilterStrategy) (br : Bool)
    (r : Except Mls.MlsError Unit) :
    (r = .ok () → Mls.apply_strategy s br r = .ok true) ∧
    (Mls.apply_strategy s br r = .ok false ↔
      r ≠ .ok () ∧ s = .ignoreByRef ∧ br = true) ∧
    (∀ e, r = .error e → (br = false ∨ s = .ignoreNone) →
      Mls.apply_strategy s br r = .error e) := by
  cases s <;> cases br <;> cases r <;>
    simp [Mls.apply_strategy, Mls.FilterStrategy.ignore]

/-- C2 witness: a failed validation of a by-reference proposal under
`IgnoreByRef` is silently dropped. -/
theorem apply_strategy_spec_witness :
    Mls.apply_strategy .ignoreByRef true (.error .invalidCommitSelfUpdate) = .ok false :=
  (apply_strategy_spec .ignoreByRef true (.error .invalidCommitSelfUpdate)).2.1.mpr
    ⟨by simp, rfl, rfl⟩

end Spec2Proof
namespace Spec2Proof

namespace Mls

theorem retainM_all_kept {T : Type} (f : ProposalInfo T → Except MlsError Bool)
    (ps : List (ProposalInfo T)) (h : ∀ p ∈ ps, f p = .ok true) :
    retainM f ps = .ok ps := by
  induction ps with
  | nil => rfl
  | cons p ps ih =>
    unfold retainM
    rw [h p (by simp), ih (fun q hq => h q (by simp [hq]))]
    rfl

theorem retainM_error {T : Type} (f : ProposalInfo T → Except MlsError Bool)
    (ps : List (ProposalInfo T)) (e : MlsError)
    (h : ∃ p ∈ ps, f p = .error e)
    (hk : ∀ p ∈ ps, f p = .ok true ∨ f p = .error e) :
    retainM f ps = .error e := by
  induction ps with
  | nil => exact absurd h (by simp)
  | cons p ps ih =>
    unfold retainM
    rcases hk p (by simp) with hp | hp
    · rw [hp]
      obtain ⟨q, hq, hqe⟩ := h
      rcases List.mem_cons.mp hq with rfl | hq'
      · rw [hp] at hqe; exact absurd hqe (by simp)
      · rw [ih ⟨q, hq', hqe⟩ (fun r hr => hk r (by simp [hr]))]
        rfl
    · rw [hp]

theorem retainM_filter {T : Type} (f : ProposalInfo T → Except MlsError Bool)
    (g : ProposalInfo T → Bool) (ps : List (ProposalInfo T))
    (h : ∀ p ∈ ps, f p = .ok (g p)) :
    retainM f ps = .ok (ps.filter g) := by
  induction ps with
  | nil => rfl
  | cons p ps ih =>
    unfold retainM
    rw [h p (by simp), ih (fun q hq => h q (by simp [hq]))]
    cases hg : g p <;> simp [List.filter, hg, Except.map]

end Mls

end Spec2Proof
namespace Spec2Proof

/-- C8: every `Update` whose sender is the committer fails this check —
under `IgnoreNone` the whole commit fails with `InvalidCommitSelfUpdate`;
under `IgnoreByRef`, when each such update is by-reference, the offending
updates are removed and the rest proceed; updates from any other sender
are retained. -/
theorem filter_out_update_for_committer_spec {T : Type} (s : Mls.FilterStrategy)
    (c : Nat) (b : Mls.ProposalBundle T) :
    (s = .ignoreNone → (∃ p ∈ b.updates, p.sender = .member c) →
      Mls.filter_out_update_for_committer s c b = .error .invalidCommitSelfUpdate) ∧
    (s = .ignoreByRef → (∀ p ∈ b.updates, p.sender = .member c → p.byRef = true) →
      Mls.filter_out_update_for_committer s c b =
        .ok { b with updates :=
          b.updates.filter (fun p => decide (p.sender ≠ .member c)) }) ∧
    ((∀ p ∈ b.updates, p.sender ≠ .member c) →
      Mls.filter_out_update_for_committer s c b = .ok b) := by
  refine ⟨?_, ?_, ?_⟩
  · rintro rfl ⟨p, hp, hps⟩
    unfold Mls.filter_out_update_for_committer
    rw [Mls.retainM_error _ _ .invalidCommitSelfUpdate]
    · rfl
    · refine ⟨p, hp, ?_⟩
      simp [hps, Mls.apply_strategy, Mls.FilterStrategy.ignore]
    · intro q hq
      by_cases hqs : q.sender = .member c
      · right
        simp [hqs, Mls.apply_strategy, Mls.FilterStrategy.ignore]
      · left
        simp [hqs, Mls.apply_strategy]
  · rintro rfl hall
    unfold Mls.filter_out_update_for_committer
    rw [Mls.retainM_filter _ (fun p => decide (p.sender ≠ .member c))]
    · rfl
    · intro q hq
      by_cases hqs : q.sender = .member c
      · have hbr := hall q hq hqs
      
        simp [hqs, hbr, Mls.apply_strategy, Mls.FilterStrategy.ignore,
          Mls.ProposalInfo.is_by_reference]
      · simp [hqs, Mls.apply_strategy]
  · intro hall
    unfold Mls.filter_out_update_for_committer
    rw [Mls.retainM_all_kept]
    · rfl
    · intro q hq
      simp [hall q hq, Mls.apply_strategy]

/-- A bundle holding one by-reference `Update` from the committer (leaf 0)
and one by-reference `Update` from another member. -/
def selfUpdateBundle : Mls.ProposalBundle Unit :=
  { additions := [], updates := [⟨(), .member 0, true⟩, ⟨(), .member 5, true⟩],
    removals := [], psks := [], reinitializations := [],
    externalInitializations := [], groupContextExtensions := [] }

/-- C8 witness: under `IgnoreByRef` the committer's own by-reference
update is removed while the other member's update is retained; evaluated
on `selfUpdateBundle`. -/
theorem filter_out_update_for_committer_spec_witness :
    Mls.filter_out_update_for_committer .ignoreByRef 0 selfUpdateBundle =
      .ok { selfUpdateBundle with updates := [⟨(), .member 5, true⟩] } := by
  have h := (filter_out_update_for_committer_spec .ignoreByRef 0 selfUpdateBundle).2.1
    rfl (by decide)
  simpa [selfUpdateBundle] using h

end Spec2Proof
namespace Spec2Proof

/-- A bundle holding one by-reference `Add` from a member together with
one by-reference `ReInit`. -/
def reinitCexBundle : Mls.ProposalBundle Unit :=
  { additions := [⟨(), .member 1, true⟩], updates := [], removals := [],
    psks := [], reinitializations := [⟨(), .member 2, true⟩],
    externalInitializations := [], groupContextExtensions := [] }

/-- C3 counterexample: on a bundle carrying a by-reference `ReInit` next
to a by-reference `Add`, filtering under `IgnoreByRef` succeeds but clears
the `ReInit` sequence and keeps the `Add` — the opposite of the claimed
result in which the other proposals are dropped and the `ReInit` stands
alone. -/
theorem filter_out_reinit_cex :
    Mls.filter_out_reinit_if_other_proposals
        Mls.FilterStrategy.ignoreByRef.is_ignore reinitCexBundle =
      .ok { reinitCexBundle with reinitializations := [] } ∧
    ({ reinitCexBundle with reinitializations := [] } : Mls.ProposalBundle Unit) ≠
      { reinitCexBundle with additions := [] } :=
  ⟨rfl, by decide⟩

/-- C3 (amended): when a bundle holds at least one `ReInit` together with
a proposal of another type, filtering fails with `OtherProposalWithReInit`
if any `ReInit` is by-value or the strategy is `IgnoreNone`; under
`IgnoreByRef` with every `ReInit` by-reference, filtering succeeds, the
`ReInit` proposals are dropped and the other proposals are retained. -/
theorem filter_out_reinit_spec {T : Type} (s : Mls.FilterStrategy)
    (b : Mls.ProposalBundle T)
    (hother : b.reinitializations.length < b.length)
    (hne : b.reinitializations ≠ []) :
    ((b.reinitializations.any (fun p => p.is_by_value) = true ∨ s = .ignoreNone) →
      Mls.filter_out_reinit_if_other_proposals s.is_ignore b =
        .error .otherProposalWithReInit) ∧
    ((∀ p ∈ b.reinitializations, p.byRef = true) → s = .ignoreByRef →
      Mls.filter_out_reinit_if_other_proposals s.is_ignore b =
        .ok { b with reinitializations := [] }) := by
  constructor
  · intro h
    unfold Mls.filter_out_reinit_if_other_proposals
    rw [if_pos hother, if_pos]
    rcases h with h | rfl
    · simp [h]
    · simp [Mls.FilterStrategy.is_ignore, List.isEmpty_iff, hne]
  · rintro hall rfl
    unfold Mls.filter_out_reinit_if_other_proposals
    rw [if_pos hother, if_neg]
    have hany : b.reinitializations.any (fun p => p.is_by_value) = false := by
      rw [List.any_eq_false]
      intro p hp
      simp [Mls.ProposalInfo.is_by_value, hall p hp]
    simp [hany, Mls.FilterStrategy.is_ignore]

/-- C3 witness: on `reinitCexBundle` under `IgnoreNone` (a by-reference
`ReInit` next to another proposal) filtering fails with
`OtherProposalWithReInit`. -/
theorem filter_out_reinit_spec_witness :
    Mls.filter_out_reinit_if_other_proposals
        Mls.FilterStrategy.ignoreNone.is_ignore reinitCexBundle =
      .error .otherProposalWithReInit :=
  (filter_out_reinit_spec .ignoreNone reinitCexBundle (by decide) (by decide)).1
    (Or.inr rfl)

end Spec2Proof

namespace Spec2Proof

/-! Model of `src/src/group/membership_tag.rs` (the earlier crate under
`src/src`). `MLSContentTBS::from_authenticated_content` and the TBM
serialization live outside the provided sources and enter as a function
parameter, as does the HMAC of the ciphersuite. -/

namespace OldMls

/-- The wire formats of the earlier crate: plaintext and ciphertext
framing. -/
inductive WireFormat where
  | plain
  | cipher
  deriving DecidableEq, Repr

/-- `MembershipTagError`: HMAC failure, serialization failure, or a
non-plaintext wire format. -/
inductive MembershipTagError where
  | hmacFailure
  | serializationFailure
  | nonPlainWireFormat (wireFormat : WireFormat)
  deriving DecidableEq, Repr

/-- `MLSAuthenticatedContent` as far as the membership tag reads it: the
wire format plus an opaque body `B` (content and auth data). -/
structure MLSAuthenticatedContent (B : Type) where
  wireFormat : WireFormat
  body : B
  deriving DecidableEq, Repr

/-- `MembershipTag::create`: refuse any wire format other than `Plain`
with `NonPlainWireFormat`; otherwise serialize the `MLSContentTBM` built
from the authenticated content and group context (a fallible step) and
HMAC it under the membership key. -/
def MembershipTag.create {B G : Type}
    (serializeTbm : MLSAuthenticatedContent B → G → Except Unit (List Nat))
    (hmac : List Nat → List Nat → Except Unit (List Nat))
    (authenticatedContent : MLSAuthenticatedContent B) (groupContext : G)
    (membershipKey : List Nat) : Except MembershipTagError (List Nat) :=
  if authenticatedContent.wireFormat ≠ .plain then
    .error (.nonPlainWireFormat authenticatedContent.wireFormat)
  else
    match serializeTbm authenticatedContent groupContext with
    | .error _ => .error .serializationFailure
    | .ok serializedTbm =>
      match hmac membershipKey serializedTbm with
      | .ok tag => .ok tag
      | .error _ => .error .hmacFailure

end OldMls

/-- C4: `ConfirmedTranscriptHash::create` hashes the previous interim
transcript hash concatenated with the encoding of (wire format, framed
content, signature), and `InterimTranscriptHash::create` hashes the new
confirmed transcript hash concatenated with the encoding of the
confirmation tag; both are pure functions of their arguments, hence
deterministic for a deterministic hash. -/
theorem transcript_hashes_spec {FC : Type}
    (hash : List Nat → Except Unit (List Nat)) (encodeContent : FC → List Nat)
    (interim : List Nat) (content : Mls.AuthenticatedContent FC)
    (confirmed confirmationTag : List Nat) :
    (∀ sigBytes h, MlsCodec.byteVecEncode content.signature = .ok sigBytes →
      hash (interim ++ (beBytes 2 content.wireFormat.value ++
        encodeContent content.content ++ sigBytes)) = .ok h →
      Mls.ConfirmedTranscriptHash.create hash encodeContent interim content = .ok h) ∧
    (∀ tagBytes h, MlsCodec.byteVecEncode confirmationTag = .ok tagBytes →
      hash (confirmed ++ tagBytes) = .ok h →
      Mls.InterimTranscriptHash.create hash confirmed confirmationTag = .ok h) := by
  constructor
  · intro sigBytes h hs hh
    simp only [List.append_assoc] at hh
    simp [Mls.ConfirmedTranscriptHash.create, hs, hh]
  · intro tagBytes h ht hh
    simp [Mls.InterimTranscriptHash.create, ht, hh]

/-- C4 witness: both transcript hash computations evaluated with the
identity hash on concrete bytes. -/
theorem transcript_hashes_spec_witness :
    Mls.ConfirmedTranscriptHash.create (fun l => .ok l) (fun _ : Unit => [9]) [2]
      { wireFormat := .publicMessage, content := (), signature := [1] } =
      .ok [2, 0, 1, 9, 1, 1] ∧
    Mls.InterimTranscriptHash.create (fun l => .ok l) [2] [1] = .ok [2, 1, 1] :=
  ⟨(transcript_hashes_spec (fun l => .ok l) (fun _ : Unit => [9]) [2]
      { wireFormat := .publicMessage, content := (), signature := [1] } [] []).1
      [1, 1] [2, 0, 1, 9, 1, 1] rfl rfl,
   (transcript_hashes_spec (fun l => .ok l) (fun _ : Unit => [9]) [2]
      { wireFormat := .publicMessage, content := (), signature := [1] } [2] [1]).2
      [1, 1] [2, 1, 1] rfl rfl⟩

/-- C9: `MembershipTag::create` fails with `NonPlainWireFormat` for every
authenticated content whose wire format is not `Plain`, and computes the
HMAC tag over the serialized content-TBM under the membership key only
when the wire format is `Plain`. -/
theorem membership_tag_create_spec {B G : Type}
    (serializeTbm : OldMls.MLSAuthenticatedContent B → G → Except Unit (List Nat))
    (hmac : List Nat → List Nat → Except Unit (List Nat))
    (ac : OldMls.MLSAuthenticatedContent B) (ctx : G) (key : List Nat) :
    (ac.wireFormat ≠ .plain →
      OldMls.MembershipTag.create serializeTbm hmac ac ctx key =
        .error (.nonPlainWireFormat ac.wireFormat)) ∧
    (∀ tbm tag, ac.wireFormat = .plain →
      serializeTbm ac ctx = .ok tbm → hmac key tbm = .ok tag →
      OldMls.MembershipTag.create serializeTbm hmac ac ctx key = .ok tag) := by
  constructor
  · intro hwf
    unfold OldMls.MembershipTag.create
    rw [if_pos hwf]
  · intro tbm tag hwf hs hh
    simp [OldMls.MembershipTag.create, hwf, hs, hh]

/-- C9 witness: a ciphertext-framed content is refused with
`NonPlainWireFormat`, and a plaintext-framed one yields the HMAC of the
serialized TBM. -/
theorem membership_tag_create_spec_witness :
    OldMls.MembershipTag.create (fun _ _ => .ok [3]) (fun k m => .ok (k ++ m))
      ({ wireFormat := .cipher, body := () } : OldMls.MLSAuthenticatedContent Unit) () [7] =
      .error (.nonPlainWireFormat .cipher) ∧
    OldMls.MembershipTag.create (fun _ _ => .ok [3]) (fun k m => .ok (k ++ m))
      ({ wireFormat := .plain, body := () } : OldMls.MLSAuthenticatedContent Unit) () [7] =
      .ok [7, 3] :=
  ⟨(membership_tag_create_spec (fun _ _ => .ok [3]) (fun k m => .ok (k ++ m))
      { wireFormat := .cipher, body := () } () [7]).1 (by simp),
   (membership_tag_create_spec (fun _ _ => .ok [3]) (fun k m => .ok (k ++ m))
      { wireFormat := .plain, body := () } () [7]).2 [3] [7, 3] rfl rfl rfl⟩

end Spec2Proof
